import Mathlib

/-
Verification of twext/who/ldap/_service.py (LDAP directory service).

The Python module is shallowly embedded below.  Stateful code (the
connection pool) becomes explicit state passing with a step relation;
the retry loops become structural recursion over an abstract sequence of
attempt outcomes; the record mapper and DN classification become pure
functions over association lists.  The DN parsing primitive
ldap.dn.str2dn belongs to the external python-ldap library (an assumed
correct dependency); it is modelled here by an executable parser that
splits on commas, plus signs and equal signs and trims blanks, which is
the behaviour the service relies on.
-/

namespace TwextLDAP

/-! ## ConnectionPool (class ConnectionPool)

Handles are identified by the order of their creation
(`connectionsCreated` in the source); `connections` mirrors
`self.connections`, `idle` mirrors the FIFO `self.connectionQueue`
(head = next `get`, `put` appends at the back). -/

structure PoolState where
  connections : List Nat
  idle : List Nat
  nextId : Nat
  connectionMax : Nat
deriving DecidableEq

inductive AcquireResult where
  | got (c : Nat) (p : PoolState)
  | blocked (p : PoolState)
deriving DecidableEq

/-- Embedding of `ConnectionPool.getConnection`: non-blocking pop from the
idle queue; on `Empty`, under the creation lock, create a new connection
when `len(self.connections) < self.connectionMax`, otherwise block on the
queue (modelled by the `blocked` result). -/
def getConnection (p : PoolState) : AcquireResult :=
  match p.idle with
  | c :: rest => .got c { p with idle := rest }
  | [] =>
    if p.connections.length < p.connectionMax then
      .got p.nextId
        { p with connections := p.connections ++ [p.nextId], nextId := p.nextId + 1 }
    else
      .blocked p

/-- Embedding of `ConnectionPool.returnConnection`: `Queue.put` appends the
connection at the back of the idle queue. -/
def returnConnection (p : PoolState) (c : Nat) : PoolState :=
  { p with idle := p.idle ++ [c] }

/-- Embedding of `ConnectionPool.failedConnection`: remove the connection
from `self.connections`; the idle queue is not touched, so the handle is
never requeued. -/
def failedConnection (p : PoolState) (c : Nat) : PoolState :=
  { p with connections := p.connections.erase c }

/-- Embedding of `DirectoryService.Connection.__exit__`: on normal
completion the connection is returned to the pool, on any error it is
routed to `failedConnection`. -/
def guardExit (p : PoolState) (c : Nat) (errored : Bool) : PoolState :=
  if errored then failedConnection p c else returnConnection p c

/-- Pool state together with the ghost sets needed to speak about the
scoped-connection discipline: `checkedOut` are the handles currently lent
to a caller, `failed` the handles that were passed to `failedConnection`. -/
structure GState where
  pool : PoolState
  checkedOut : List Nat
  failed : List Nat
deriving DecidableEq

/-- One atomic pool operation under the scoped-connection guard: a caller
acquires a connection, or finishes with one it holds and either returns
it (no error) or evicts it via `failedConnection` (error). -/
inductive PoolStep : GState → GState → Prop where
  | acquire (s : GState) (c : Nat) (p : PoolState) :
      getConnection s.pool = .got c p →
      PoolStep s ⟨p, c :: s.checkedOut, s.failed⟩
  | release (s : GState) (c : Nat) :
      c ∈ s.checkedOut →
      PoolStep s ⟨returnConnection s.pool c, s.checkedOut.erase c, s.failed⟩
  | evict (s : GState) (c : Nat) :
      c ∈ s.checkedOut →
      PoolStep s ⟨failedConnection s.pool c, s.checkedOut.erase c, c :: s.failed⟩

def initialPool (maxConns : Nat) : GState :=
  ⟨⟨[], [], 0, maxConns⟩, [], []⟩

def PoolReachable (maxConns : Nat) (s : GState) : Prop :=
  Relation.ReflTransGen PoolStep (initialPool maxConns) s

/-- Inductive invariant of the pool: the tracked connections are exactly
the checked-out ones plus the idle ones, without duplicates, there are at
most `connectionMax` of them, handle identifiers are below the creation
counter, and failed handles are gone from the tracked set. -/
structure PoolInv (s : GState) : Prop where
  perm : s.pool.connections.Perm (s.checkedOut ++ s.pool.idle)
  nodup : s.pool.connections.Nodup
  bound : s.pool.connections.length ≤ s.pool.connectionMax
  fresh : ∀ c ∈ s.pool.connections, c < s.pool.nextId
  failedFresh : ∀ c ∈ s.failed, c < s.pool.nextId
  failedGone : ∀ c ∈ s.failed, c ∉ s.pool.connections

theorem poolInv_initial (m : Nat) : PoolInv (initialPool m) := by
  constructor <;> simp [initialPool]

theorem poolInv_step {s t : GState} (hi : PoolInv s) (hs : PoolStep s t) :
    PoolInv t := by
  obtain ⟨hperm, hnodup, hbound, hfresh, hffresh, hfgone⟩ := hi
  cases hs with
  | acquire c p hget =>
    unfold getConnection at hget
    cases hidle : s.pool.idle with
    | cons c0 rest =>
      rw [hidle] at hget
      cases hget
      rw [hidle] at hperm
      exact ⟨hperm.trans List.perm_middle, hnodup, hbound, hfresh, hffresh, hfgone⟩
    | nil =>
      rw [hidle] at hget
      by_cases hlt : s.pool.connections.length < s.pool.connectionMax
      · rw [if_pos hlt] at hget
        cases hget
        rw [hidle] at hperm
        have hnid : s.pool.nextId ∉ s.pool.connections := fun hmem =>
          Nat.lt_irrefl _ (hfresh _ hmem)
        refine ⟨?_, ?_, ?_, ?_, ?_, ?_⟩
        · exact (List.perm_append_singleton _ _).trans (hperm.cons _)
        · simpa [List.nodup_append] using ⟨hnodup, hnid⟩
        · simpa using hlt
        · intro c hc
          rcases List.mem_append.mp hc with h | h
          · exact Nat.lt_succ_of_lt (hfresh _ h)
          · simp at h
            subst h
            exact Nat.lt_succ_self _
        · intro c hc
          exact Nat.lt_succ_of_lt (hffresh _ hc)
        · intro c hc hmem
          rcases List.mem_append.mp hmem with h | h
          · exact hfgone _ hc h
          · simp at h
            subst h
            exact Nat.lt_irrefl _ (hffresh _ hc)
      · rw [if_neg hlt] at hget
        cases hget
  | release c hc =>
    refine ⟨?_, hnodup, hbound, hfresh, hffresh, hfgone⟩
    show s.pool.connections.Perm (s.checkedOut.erase c ++ (s.pool.idle ++ [c]))
    rw [← List.append_assoc]
    exact (hperm.trans ((List.perm_cons_erase hc).append_right _)).trans
      (List.perm_append_singleton _ _).symm
  | evict c hc =>
    refine ⟨?_, hnodup.erase c, ?_, ?_, ?_, ?_⟩
    · show (s.pool.connections.erase c).Perm (s.checkedOut.erase c ++ s.pool.idle)
      rw [← List.erase_append_left s.pool.idle hc]
      exact hperm.erase c
    · exact le_trans (List.erase_sublist c s.pool.connections).length_le hbound
    · intro x hx
      exact hfresh _ (List.mem_of_mem_erase hx)
    · intro x hx
      rcases List.mem_cons.mp hx with rfl | hx
      · exact hfresh _ (hperm.mem_iff.mpr (List.mem_append.mpr (.inl hc)))
      · exact hffresh _ hx
    · intro x hx hmem
      rcases List.mem_cons.mp hx with rfl | hx
      · exact absurd ((hnodup.mem_erase_iff).mp hmem).1 (by simp)
      · exact hfgone _ hx (List.mem_of_mem_erase hmem)

theorem poolInv_reachable {m : Nat} {s : GState} (h : PoolReachable m s) :
    PoolInv s := by
  induction h with
  | refl => exact poolInv_initial m
  | tail _ hstep ih => exact poolInv_step ih hstep

/-- C1: in every reachable pool state the number of simultaneously
checked-out handles is at most the configured maximum; with the idle
queue empty and the tracked set at the maximum, `getConnection` blocks;
and once a connection is released to an empty idle queue, `getConnection`
hands exactly that connection back without blocking. -/
theorem pool_checkout_never_exceeds_max (m : Nat) (s : GState) (c : Nat)
    (hr : PoolReachable m s) :
    s.checkedOut.length ≤ s.pool.connectionMax ∧
    (s.pool.idle = [] → s.pool.connectionMax ≤ s.pool.connections.length →
      getConnection s.pool = .blocked s.pool) ∧
    (s.pool.idle = [] →
      ∃ p, getConnection (returnConnection s.pool c) = .got c p) := by
  obtain ⟨hperm, _, hbound, _, _, _⟩ := poolInv_reachable hr
  refine ⟨?_, ?_, ?_⟩
  · have hlen := hperm.length_eq
    rw [List.length_append] at hlen
    omega
  · intro hidle hfull
    unfold getConnection
    rw [hidle]
    rw [if_neg (show ¬s.pool.connections.length < s.pool.connectionMax by omega)]
  · intro hidle
    refine ⟨{ s.pool with idle := [] }, ?_⟩
    unfold returnConnection getConnection
    rw [hidle]
    rfl

/-- State of a max-1 pool after one acquire that created connection 0. -/
def poolDemoState : GState := ⟨⟨[0], [], 1, 1⟩, [0], []⟩

theorem pool_checkout_never_exceeds_max_witness :
    poolDemoState.checkedOut.length ≤ poolDemoState.pool.connectionMax ∧
    (poolDemoState.pool.idle = [] →
      poolDemoState.pool.connectionMax ≤ poolDemoState.pool.connections.length →
      getConnection poolDemoState.pool = .blocked poolDemoState.pool) ∧
    (poolDemoState.pool.idle = [] →
      ∃ p, getConnection (returnConnection poolDemoState.pool 0) = .got 0 p) :=
  pool_checkout_never_exceeds_max 1 poolDemoState 0
    (Relation.ReflTransGen.single
      (PoolStep.acquire (initialPool 1) 0 ⟨[0], [], 1, 1⟩ rfl))

/-- C3: in every reachable state, a handle that was passed to
`failedConnection` by the guard is never handed out again by
`getConnection`; `failedConnection` leaves the idle queue untouched
(never requeues); the guard routes an errored use to `failedConnection`;
and failed handles stay failed across any further step. -/
theorem failed_connection_never_reacquired (m : Nat) (s t : GState)
    (c : Nat) (p : PoolState) (hr : PoolReachable m s) (hf : c ∈ s.failed)
    (hstep : PoolStep s t) :
    getConnection s.pool ≠ .got c p ∧
    (failedConnection s.pool c).idle = s.pool.idle ∧
    guardExit s.pool c true = failedConnection s.pool c ∧
    c ∈ t.failed := by
  obtain ⟨hperm, _, _, _, hffresh, hfgone⟩ := poolInv_reachable hr
  refine ⟨?_, rfl, rfl, ?_⟩
  · intro hgot
    unfold getConnection at hgot
    cases hidle : s.pool.idle with
    | cons c0 rest =>
      rw [hidle] at hgot
      cases hgot
      exact hfgone _ hf (hperm.mem_iff.mpr
        (List.mem_append.mpr (.inr (by rw [hidle]; exact List.mem_cons_self _ _))))
    | nil =>
      rw [hidle] at hgot
      by_cases hlt : s.pool.connections.length < s.pool.connectionMax
      · rw [if_pos hlt] at hgot
        cases hgot
        exact Nat.lt_irrefl _ (hffresh _ hf)
      · rw [if_neg hlt] at hgot
        cases hgot
  · cases hstep with
    | acquire c0 p0 hget => exact hf
    | release c0 hc0 => exact hf
    | evict c0 hc0 => exact List.mem_cons_of_mem _ hf

/-- State of a max-1 pool after acquiring connection 0 and then evicting
it through `failedConnection`. -/
def poolFailedDemoState : GState := ⟨⟨[], [], 1, 1⟩, [], [0]⟩

/-- The successor state of `poolFailedDemoState` after one more acquire,
which creates the fresh connection 1. -/
def poolFailedDemoNext : GState := ⟨⟨[1], [], 2, 1⟩, [1], [0]⟩

theorem failed_connection_never_reacquired_witness :
    getConnection poolFailedDemoState.pool ≠ .got 0 ⟨[1], [], 2, 1⟩ ∧
    (failedConnection poolFailedDemoState.pool 0).idle =
      poolFailedDemoState.pool.idle ∧
    guardExit poolFailedDemoState.pool 0 true =
      failedConnection poolFailedDemoState.pool 0 ∧
    0 ∈ poolFailedDemoNext.failed :=
  failed_connection_never_reacquired 1 poolFailedDemoState poolFailedDemoNext
    0 ⟨[1], [], 2, 1⟩
    (Relation.ReflTransGen.tail
      (Relation.ReflTransGen.single
        (PoolStep.acquire (initialPool 1) 0 ⟨[0], [], 1, 1⟩ rfl))
      (PoolStep.evict poolDemoState 0 (List.mem_cons_self 0 [])))
    (List.mem_cons_self 0 [])
    (PoolStep.acquire poolFailedDemoState 1 ⟨[1], [], 2, 1⟩ rfl)

/-! ## Retrying query executor

Both `_recordsFromQueryString_inThread` and
`_authenticateUsernamePassword_inThread` run
`for retryNumber in xrange(self._tries)` around one protocol operation.
The outcome of attempt number `i` is abstracted by `attempts i`:
`success` is a body that completes (returning its value), `serverDown`
is an `ldap.SERVER_DOWN` escaping the `with` block, and `failure` is any
other exception escaping the body (terminal, not retried). -/

inductive AttemptOutcome (α : Type) where
  | success (a : α)
  | serverDown
  | failure
deriving DecidableEq

inductive RunResult (α : Type) where
  | ok (a : α)
  | serverDownError
  | terminalError
  | noAttempt
deriving DecidableEq

/-- Embedding of the retry loop, returning the result together with the
number of attempts made.  On `SERVER_DOWN` the code checks
`retryNumber + 1 == self._tries`: on the last attempt it raises
`LDAPQueryError("LDAP server down", e)` (`serverDownError`), otherwise it
retries; any other exception propagates at once (`terminalError`); a
completed body breaks out of the loop (`ok`).  With `tries = 0` the loop
body never runs (`noAttempt`). -/
def runWithRetries {α : Type} (attempts : Nat → AttemptOutcome α) :
    Nat → RunResult α × Nat
  | 0 => (.noAttempt, 0)
  | 1 =>
    match attempts 0 with
    | .success a => (.ok a, 1)
    | .failure => (.terminalError, 1)
    | .serverDown => (.serverDownError, 1)
  | n + 2 =>
    match attempts 0 with
    | .success a => (.ok a, 1)
    | .failure => (.terminalError, 1)
    | .serverDown =>
      let r := runWithRetries (fun i => attempts (i + 1)) (n + 1)
      (r.1, r.2 + 1)

/-- Number of transient (`SERVER_DOWN`) failures observed during the
first `n` attempts. -/
def observedTransient {α : Type} (attempts : Nat → AttemptOutcome α)
    (n : Nat) : Nat :=
  ((List.range n).filter (fun i =>
    match attempts i with
    | .serverDown => true
    | _ => false)).length

/-- Result of the attempt the loop stops at, when that attempt is not
transient. -/
def stopResult {α : Type} : AttemptOutcome α → RunResult α
  | .success a => .ok a
  | .failure => .terminalError
  | .serverDown => .serverDownError

theorem runWithRetries_all_serverDown {α : Type}
    (attempts : Nat → AttemptOutcome α) (tries : Nat) (h1 : 1 ≤ tries)
    (hall : ∀ i, i < tries → attempts i = .serverDown) :
    runWithRetries attempts tries = (.serverDownError, tries) := by
  induction tries generalizing attempts with
  | zero => omega
  | succ n ih =>
    cases n with
    | zero =>
      unfold runWithRetries
      rw [hall 0 (by omega)]
    | succ m =>
      unfold runWithRetries
      rw [hall 0 (by omega)]
      have := ih (fun i => attempts (i + 1)) (by omega)
        (fun i hi => hall (i + 1) (by omega))
      simp only [this]

theorem runWithRetries_stops {α : Type}
    (attempts : Nat → AttemptOutcome α) (tries k : Nat) (hk : k < tries)
    (hpre : ∀ i, i < k → attempts i = .serverDown)
    (hstop : attempts k ≠ .serverDown) :
    runWithRetries attempts tries = (stopResult (attempts k), k + 1) := by
  induction k generalizing attempts tries with
  | zero =>
    match tries, hk with
    | 1, _ =>
      unfold runWithRetries
      cases h : attempts 0 with
      | success a => simp [stopResult]
      | serverDown => exact absurd h hstop
      | failure => simp [stopResult]
    | n + 2, _ =>
      unfold runWithRetries
      cases h : attempts 0 with
      | success a => simp [stopResult]
      | serverDown => exact absurd h hstop
      | failure => simp [stopResult]
  | succ k ih =>
    match tries, hk with
    | n + 2, hk =>
      unfold runWithRetries
      rw [hpre 0 (by omega)]
      have := ih (fun i => attempts (i + 1)) (n + 1) (by omega)
        (fun i hi => hpre (i + 1) (by omega)) hstop
      simp only [this]

/-- C2 counterexample: with the default budget of `tries = 3` attempts
and a server that is down on every attempt, the executor makes 3 attempts
and therefore exactly 2 retries, while it observes 3 transient failures;
`min(configuredTries, observedTransientFailures) = min 3 3 = 3 ≠ 2`, so
the claimed retry count is wrong in the budget-exhaustion case. -/
theorem retry_count_formula_counterexample :
    (runWithRetries (fun _ => (AttemptOutcome.serverDown : AttemptOutcome Nat)) 3).2 - 1 = 2 ∧
    observedTransient (fun _ => (AttemptOutcome.serverDown : AttemptOutcome Nat))
      (runWithRetries (fun _ => (AttemptOutcome.serverDown : AttemptOutcome Nat)) 3).2 = 3 ∧
    (runWithRetries (fun _ => (AttemptOutcome.serverDown : AttemptOutcome Nat)) 3).1 =
      RunResult.serverDownError ∧
    (2 : Nat) ≠ min 3 3 := by
  decide

/-- C2 (amended): the executor retries exactly
`min(configuredTries - 1, observedTransientFailures)` times: it retries
only on the transient server-unavailable signal, makes zero retries for
any other failure (which propagates at once), and after `tries`
consecutive transient failures it raises the query error wrapping the
last transient cause.  Here `k` is the length of the leading run of
transient failures in the attempt sequence. -/
theorem retry_executor_retry_count (α : Type)
    (attempts : Nat → AttemptOutcome α) (tries k : Nat) (a : α)
    (h1 : 1 ≤ tries)
    (hpre : ∀ i, i < k → attempts i = .serverDown)
    (hstop : k < tries → attempts k ≠ .serverDown) :
    ((runWithRetries attempts tries).2 - 1 = min (tries - 1) k ∧
      observedTransient attempts (runWithRetries attempts tries).2 =
        min tries k) ∧
    (tries ≤ k → runWithRetries attempts tries = (.serverDownError, tries)) ∧
    (k < tries → attempts k = .success a →
      runWithRetries attempts tries = (.ok a, k + 1)) ∧
    (k < tries → attempts k = .failure →
      runWithRetries attempts tries = (.terminalError, k + 1)) := by
  have hobs : ∀ n, n ≤ k → observedTransient attempts n = n := by
    intro n hn
    unfold observedTransient
    rw [List.filter_eq_self.mpr]
    · exact List.length_range n
    · intro i hi
      rw [hpre i (lt_of_lt_of_le (List.mem_range.mp hi) hn)]
  by_cases hk : tries ≤ k
  · have hrun := runWithRetries_all_serverDown attempts tries h1
      (fun i hi => hpre i (by omega))
    refine ⟨⟨?_, ?_⟩, fun _ => hrun, ?_, ?_⟩
    · rw [hrun]
      simp
      omega
    · rw [hrun]
      simpa [hobs tries hk] using by omega
    · intro hlt
      omega
    · intro hlt
      omega
  · push_neg at hk
    have hrun := runWithRetries_stops attempts tries k hk hpre (hstop hk)
    have hobsk : observedTransient attempts (k + 1) = k := by
      unfold observedTransient
      rw [List.range_succ, List.filter_append]
      have h2 : observedTransient attempts k = k := hobs k (le_refl k)
      unfold observedTransient at h2
      rw [List.length_append, h2]
      cases h : attempts k with
      | success b => simp [h]
      | serverDown => exact absurd h (hstop hk)
      | failure => simp [h]
    refine ⟨⟨?_, ?_⟩, fun h => by omega, ?_, ?_⟩
    · rw [hrun]
      simp
      omega
    · rw [hrun]
      simpa [hobsk] using by omega
    · intro _ hsucc
      rw [hrun, hsucc]
      rfl
    · intro _ hfail
      rw [hrun, hfail]
      rfl

/-- Attempt sequence used for the C2 witness: two transient failures,
then a completing body. -/
def demoAttempts : Nat → AttemptOutcome Nat :=
  fun i => if i < 2 then .serverDown else .success 42

theorem retry_executor_retry_count_witness :
    ((runWithRetries demoAttempts 3).2 - 1 = min (3 - 1) 2 ∧
      observedTransient demoAttempts (runWithRetries demoAttempts 3).2 =
        min 3 2) ∧
    (3 ≤ 2 → runWithRetries demoAttempts 3 = (.serverDownError, 3)) ∧
    (2 < 3 → demoAttempts 2 = .success 42 →
      runWithRetries demoAttempts 3 = (.ok 42, 2 + 1)) ∧
    (2 < 3 → demoAttempts 2 = .failure →
      runWithRetries demoAttempts 3 = (.terminalError, 2 + 1)) :=
  retry_executor_retry_count Nat demoAttempts 3 2 42 (by omega)
    (fun i hi => by
      unfold demoAttempts
      rw [if_pos hi])
    (fun _ => by decide)

/-! ## Credential verification
(`DirectoryService._authenticateUsernamePassword_inThread`, single
attempt body inside the retry loop) -/

inductive BindOutcome where
  | success
  | invalidCredentials
  | constraintViolation
  | serverDown
  | otherError
deriving DecidableEq

structure AuthAttemptResult where
  verdict : Option Bool
  rebindPerformed : Bool
deriving DecidableEq

/-- Embedding of one attempt of
`_authenticateUsernamePassword_inThread`: `connection.simple_bind_s(dn,
password)` succeeds and the body executes `return True`, or raises one of
the handled exceptions.  `verdict = some b` means the function returns
`b`; `verdict = none` means `ldap.SERVER_DOWN` is re-raised for the outer
retry logic.  `rebindPerformed` records whether the anonymous re-bind
`connection.simple_bind_s("", "")` ran.  That call sits in the `else`
clause of the `try` statement, but every path through the `try` suite
ends in `return True`, which leaves the function before a `try`-`else`
clause can run, and every exception path returns or re-raises; so the
re-bind is unreachable and `rebindPerformed` is `false` on every path. -/
def authBindAttempt : BindOutcome → AuthAttemptResult
  | .success => ⟨some true, false⟩
  | .invalidCredentials => ⟨some false, false⟩
  | .constraintViolation => ⟨some false, false⟩
  | .serverDown => ⟨none, false⟩
  | .otherError => ⟨some false, false⟩

/-- C8: on a successful bind the verification returns `True`, but the
anonymous re-bind is never performed — the code contradicts its own
comment ("Do an unauthenticated bind on this connection at the end"),
because the `return True` in the `try` suite makes the `try`-`else`
clause holding that re-bind unreachable. -/
theorem auth_success_skips_anonymous_rebind :
    authBindAttempt BindOutcome.success =
      { verdict := some true, rebindPerformed := false } := rfl

/-! ## Single-record lookup by DN (`DirectoryService._recordWithDN_inThread`) -/

inductive SearchOutcome (α : Type) where
  | entries (l : List α)
  | noSuchObject
  | invalidDN
  | serverDown
  | otherError
deriving DecidableEq

inductive LookupResult (β : Type) where
  | found (b : β)
  | notFound
  | serverDownError
  | raisedError
deriving DecidableEq

inductive LoopOut (β : Type) where
  | done (records : List β)
  | sdError
  | raised
deriving DecidableEq

/-- Embedding of the retry loop of `_recordWithDN_inThread`.  `records`
is the variable initialised to `[]` before the loop; a `search_s` that
returns entries sets it to `self._recordsFromReply(reply)` and breaks,
`NO_SUCH_OBJECT` and `INVALID_DN_SYNTAX` set it to `[]` and break,
`SERVER_DOWN` retries (raising `LDAPQueryError` once the budget is
spent), and any other exception propagates. -/
def recordWithDNAux {α β : Type} (mapEntries : List α → List β)
    (attempts : Nat → SearchOutcome α) (records : List β) :
    Nat → LoopOut β
  | 0 => .done records
  | 1 =>
    match attempts 0 with
    | .entries l => .done (mapEntries l)
    | .noSuchObject => .done []
    | .invalidDN => .done []
    | .serverDown => .sdError
    | .otherError => .raised
  | n + 2 =>
    match attempts 0 with
    | .entries l => .done (mapEntries l)
    | .noSuchObject => .done []
    | .invalidDN => .done []
    | .serverDown =>
      recordWithDNAux mapEntries (fun i => attempts (i + 1)) records (n + 1)
    | .otherError => .raised

/-- Embedding of `_recordWithDN_inThread`: after the loop, return
`records[0]` when the list is non-empty and `None` otherwise. -/
def recordWithDN {α β : Type} (mapEntries : List α → List β)
    (attempts : Nat → SearchOutcome α) (tries : Nat) : LookupResult β :=
  match recordWithDNAux mapEntries attempts [] tries with
  | .done [] => .notFound
  | .done (r :: _) => .found r
  | .sdError => .serverDownError
  | .raised => .raisedError

/-- C10: a direct lookup of a record by DN returns `None` (rather than
raising) when the DN names no entry or has invalid syntax, and returns
the first mapped record when the search succeeds and at least one entry
maps to a record. -/
theorem record_with_dn_lookup (α β : Type) (mapEntries : List α → List β)
    (attempts : Nat → SearchOutcome α) (tries : Nat) (l : List α) (r : β)
    (rest : List β) (h1 : 1 ≤ tries) :
    (attempts 0 = .noSuchObject →
      recordWithDN mapEntries attempts tries = .notFound) ∧
    (attempts 0 = .invalidDN →
      recordWithDN mapEntries attempts tries = .notFound) ∧
    (attempts 0 = .entries l → mapEntries l = r :: rest →
      recordWithDN mapEntries attempts tries = .found r) := by
  refine ⟨?_, ?_, ?_⟩ <;> intro h0
  · match tries, h1 with
    | 1, _ => unfold recordWithDN recordWithDNAux; rw [h0]
    | n + 2, _ => unfold recordWithDN recordWithDNAux; rw [h0]
  · match tries, h1 with
    | 1, _ => unfold recordWithDN recordWithDNAux; rw [h0]
    | n + 2, _ => unfold recordWithDN recordWithDNAux; rw [h0]
  · intro hmap
    match tries, h1 with
    | 1, _ =>
      unfold recordWithDN recordWithDNAux
      rw [h0]
      simp [hmap]
    | n + 2, _ =>
      unfold recordWithDN recordWithDNAux
      rw [h0]
      simp [hmap]

/-- Search-attempt sequence for the C10 witness: every search returns a
single entry. -/
def demoSearchAttempts : Nat → SearchOutcome Nat :=
  fun _ => .entries [7]

theorem record_with_dn_lookup_witness :
    (demoSearchAttempts 0 = .noSuchObject →
      recordWithDN (fun l => l) demoSearchAttempts 3 = .notFound) ∧
    (demoSearchAttempts 0 = .invalidDN →
      recordWithDN (fun l => l) demoSearchAttempts 3 = .notFound) ∧
    (demoSearchAttempts 0 = .entries [7] → (fun (l : List Nat) => l) [7] = 7 :: [] →
      recordWithDN (fun l => l) demoSearchAttempts 3 = .found 7) :=
  record_with_dn_lookup Nat Nat (fun l => l) demoSearchAttempts 3 [7] 7 []
    (by omega)

/-! ## DN parsing and record-type classification

`ldap.dn.str2dn` belongs to the external python-ldap dependency, which
the service treats as correct.  It is modelled here over character
lists: a DN string splits on commas into RDNs, each RDN splits on plus
signs into attribute-value assertions, and each assertion splits at its
first equal sign, with surrounding blanks trimmed (which is how the
parser absorbs the optional whitespace after RDN separators).  The
lowercasing performed by the callers (`dnStr.lower()`) is `lowerString`. -/

def splitOnChar (sep : Char) : List Char → List (List Char)
  | [] => [[]]
  | c :: rest =>
    let r := splitOnChar sep rest
    if c = sep then [] :: r
    else
      match r with
      | [] => [[c]]
      | g :: gs => (c :: g) :: gs

def trimChars (l : List Char) : List Char :=
  ((l.dropWhile (fun c => c = ' ')).reverse.dropWhile (fun c => c = ' ')).reverse

def lowerString (s : String) : String :=
  String.mk (s.data.map Char.toLower)

/-- One attribute-value assertion `attr=value` of an RDN, trimmed. -/
def parseAVA (l : List Char) : String × String :=
  match splitOnChar '=' l with
  | [] => ("", "")
  | a :: rest =>
    (String.mk (trimChars a),
      String.mk (trimChars (List.intercalate ['='] rest)))

def parseRDN (l : List Char) : List (String × String) :=
  (splitOnChar '+' l).map parseAVA

/-- Model of `ldap.dn.str2dn`: the empty string parses to the empty DN;
otherwise the comma-separated RDN list. -/
def str2dn (s : String) : List (List (String × String)) :=
  if s.data = [] then []
  else (splitOnChar ',' s.data).map parseRDN

/-- Embedding of `dnContainedIn`: Python's `child[-len(parent):] ==
parent`; a negative-slice start of `-0` means the slice is the whole
child list, hence the special case for an empty parent. -/
def dnContainedIn (child parent : List (List (String × String))) : Bool :=
  (if parent.length = 0 then child
   else child.drop (child.length - parent.length)) == parent

structure RecordTypeSchema where
  relativeDN : String
  attributes : List (String × String)
deriving DecidableEq

/-- Embedding of `recordTypeForDN`: lowercase and parse the entry DN and
the base DN, then return the first record type (in schema iteration
order) whose parsed `relativeDN ++ baseDN` is a suffix of the entry DN. -/
def recordTypeForDN (baseDnStr : String)
    (recordTypeSchemas : List (String × RecordTypeSchema)) (dnStr : String) :
    Option String :=
  match recordTypeSchemas.find? (fun rs =>
    dnContainedIn (str2dn (lowerString dnStr))
      (str2dn (lowerString rs.2.relativeDN) ++ str2dn (lowerString baseDnStr))) with
  | some rs => some rs.1
  | none => none

/-- Embedding of `recordTypeForRecordData`: first schema whose required
attribute-value pairs all occur in the raw attribute map wins (raw
attribute values are multi-valued, so the test is membership). -/
def lookupRaw (recordData : List (String × List String)) (k : String) :
    Option (List String) :=
  (recordData.find? (fun p => p.1 == k)).map (fun p => p.2)

def recordTypeForRecordData
    (recordTypeSchemas : List (String × RecordTypeSchema))
    (recordData : List (String × List String)) : Option String :=
  match recordTypeSchemas.find? (fun rs =>
    rs.2.attributes.all (fun av =>
      match lookupRaw recordData av.1 with
      | some vs => vs.contains av.2
      | none => false)) with
  | some rs => some rs.1
  | none => none

/-- C9: record-type classification by DN lowercases and parses (which
collapses the whitespace after RDN separators) before testing suffix
containment of each schema's `relativeDN ++ baseDN`, and the first
matching schema in iteration order wins. -/
theorem record_type_for_dn_first_match (base dnStr t : String)
    (pre post : List (String × RecordTypeSchema)) (sch : RecordTypeSchema)
    (hpre : ∀ rs ∈ pre,
      dnContainedIn (str2dn (lowerString dnStr))
        (str2dn (lowerString rs.2.relativeDN) ++ str2dn (lowerString base)) = false)
    (hmatch : dnContainedIn (str2dn (lowerString dnStr))
      (str2dn (lowerString sch.relativeDN) ++ str2dn (lowerString base)) = true) :
    recordTypeForDN base (pre ++ (t, sch) :: post) dnStr = some t := by
  unfold recordTypeForDN
  induction pre with
  | nil =>
    simp only [List.nil_append, List.find?_cons, hmatch]
  | cons q qs ih =>
    have hq := hpre q (List.mem_cons_self _ _)
    simp only [List.cons_append, List.find?_cons, hq]
    exact ih (fun rs hrs => hpre rs (List.mem_cons_of_mem _ hrs))

/-- C9 witness: the DN `"CN=Bob, OU=Person,DC=Example"` (mixed case,
with a blank after the first comma) classifies under a schema with
`relativeDN = "ou=Person"` and base DN `"dc=example"`. -/
theorem record_type_for_dn_first_match_witness :
    recordTypeForDN "dc=example"
      [("user", ⟨"ou=Person", [("objectClass", "inetOrgPerson")]⟩)]
      "CN=Bob, OU=Person,DC=Example" = some "user" :=
  record_type_for_dn_first_match "dc=example" "CN=Bob, OU=Person,DC=Example"
    "user" [] [] ⟨"ou=Person", [("objectClass", "inetOrgPerson")]⟩
    (fun rs hrs => absurd hrs (List.not_mem_nil rs))
    (by decide)

/-! ## Compound expressions
(`DirectoryService.recordsFromCompoundExpression`) -/

inductive Operand where
  | logicalAnd
  | logicalOr
deriving DecidableEq

inductive Expr where
  | matchExpr (field value : String)
  | existsExpr (field : String)
  | booleanExpr (field : String)
  | compound (subexpressions : List Expr) (op : Operand)

/-- What a call dispatches: `immediate` is `return succeed(...)` with no
thread-pool dispatch and no search; `dispatchSearch` hands a compiled
query string to `_recordsFromQueryString`, which defers to the worker
pool. -/
inductive QueryAction (α : Type) where
  | immediate (results : List α)
  | dispatchSearch (queryString : String)
deriving DecidableEq

/-- Embedding of `recordsFromCompoundExpression`:
`if not expression.expressions: return succeed(())`; otherwise the
expression is compiled (by `ldapQueryStringFromCompoundExpression`, an
argument here) and one query is dispatched. -/
def recordsFromCompoundExpression (α : Type)
    (compile : List Expr → Operand → String)
    (subexpressions : List Expr) (op : Operand) : QueryAction α :=
  match subexpressions with
  | [] => .immediate []
  | _ => .dispatchSearch (compile subexpressions op)

def dispatchCount {α : Type} : QueryAction α → Nat
  | .immediate _ => 0
  | .dispatchSearch _ => 1

/-- C6: executing a compound expression with an empty subexpression list
returns an empty result immediately and dispatches zero protocol
operations, for any compiler and either operand. -/
theorem empty_compound_short_circuits (α : Type)
    (compile : List Expr → Operand → String) (op : Operand) :
    recordsFromCompoundExpression α compile [] op = .immediate [] ∧
    dispatchCount (recordsFromCompoundExpression α compile [] op) = 0 :=
  ⟨rfl, rfl⟩

/-! ## Record mapper (`DirectoryService._recordsFromReply`)

Raw attribute values arrive as text (the UTF-8 decoding of the `unicode`
branch is the identity here, and a scalar raw value and a one-element
list are not distinguishable after the code's `values = [values]`
normalisation).  The UUID constructor and `valueType.lookupByName` come
from the runtime and are passed in as `parse` and `lookupN`; both return
`none` where Python would raise the exception the code handles. -/

inductive ValueKind where
  | string
  | uuid
  | boolean
  | names
deriving DecidableEq

/-- One entry of `fieldNameToAttributesMap` together with the field's
declared value type and multi-value flag (`fieldName.valueType` /
`fieldName.isMultiValue`). -/
structure FieldSpec where
  name : String
  valueKind : ValueKind
  multiValue : Bool
  rules : List String
deriving DecidableEq

inductive FieldValue where
  | str (s : String)
  | strs (l : List String)
  | bool (b : Bool)
  | name (s : String)
deriving DecidableEq

abbrev Fields := List (String × FieldValue)

def lookupField (fields : Fields) (k : String) : Option FieldValue :=
  (fields.find? (fun p => p.1 == k)).map (fun p => p.2)

def setField (fields : Fields) (k : String) (v : FieldValue) : Fields :=
  match fields with
  | [] => [(k, v)]
  | p :: rest => if p.1 == k then (k, v) :: rest else p :: setField rest k v

def splitColon (s : String) : List String :=
  (splitOnChar ':' s.data).map String.mk

/-- The list comprehension `[valueType(v) for v in values]` under its
`try`: it fails as a whole as soon as any single value fails to parse. -/
def coerceAll (parse : String → Option String) : List String → Option (List String)
  | [] => some []
  | v :: rest =>
    match parse v with
    | none => none
    | some w =>
      match coerceAll parse rest with
      | none => none
      | some ws => some (w :: ws)

/-- Storing coerced values: multi-value fields extend the existing list,
single-value fields keep the first successfully coerced value
("First one in the list wins").  An empty `newValues` on the
single-value path would make Python's `newValues[0]` raise; it does not
occur for a present attribute and is a no-op here. -/
def storeValues (fields : Fields) (fieldName : String) (multi : Bool)
    (newValues : List String) : Fields :=
  if multi then
    match lookupField fields fieldName with
    | some (.strs old) => setField fields fieldName (.strs (old ++ newValues))
    | some _ => fields
    | none => setField fields fieldName (.strs newValues)
  else
    match lookupField fields fieldName with
    | some _ => fields
    | none =>
      match newValues with
      | [] => fields
      | v :: _ => setField fields fieldName (.str v)

/-- Embedding of the body of the attribute-rule loop of
`_recordsFromReply` for one field and one attribute rule.  The `bool`
branch mirrors the `for`-`else`: the field is set to `True` when some
raw value equals the declared true-literal (default `"true"`), else to
`False`.  The `names` branch takes the rule's `attr:value:constant`
parts, finds the first raw value equal to the attribute value and maps
the constant through `lookupN`, dropping it silently when the lookup
raises.  (A `bool` rule with more than one colon or a `names` rule
without exactly two colons would make Python's unpacking raise; such
malformed rules are not modelled.) -/
def coerceRule (parse lookupN : String → Option String) (kind : ValueKind)
    (multi : Bool) (fieldName rule : String)
    (recordData : List (String × List String)) (fields : Fields) : Fields :=
  match lookupRaw recordData ((splitColon rule).headD "") with
  | none => fields
  | some values =>
    match kind with
    | .string => storeValues fields fieldName multi values
    | .uuid =>
      match coerceAll parse values with
      | none => fields
      | some newValues => storeValues fields fieldName multi newValues
    | .boolean =>
      let trueValue :=
        match splitColon rule with
        | [_, tv] => tv
        | _ => "true"
      setField fields fieldName (.bool (values.contains trueValue))
    | .names =>
      match splitColon rule with
      | [_, attributeValue, fieldValue] =>
        match values.find? (fun v => v == attributeValue) with
        | some _ =>
          match lookupN fieldValue with
          | some c => setField fields fieldName (.name c)
          | none => fields
        | none => fields
      | _ => fields

def applyFieldSpec (parse lookupN : String → Option String)
    (recordData : List (String × List String)) (fields : Fields)
    (spec : FieldSpec) : Fields :=
  spec.rules.foldl
    (fun fs rule =>
      coerceRule parse lookupN spec.valueKind spec.multiValue spec.name rule
        recordData fs)
    fields

/-- The `fields` dictionary after the loop over
`fieldNameToAttributesMap`. -/
def buildFields (parse lookupN : String → Option String)
    (specs : List FieldSpec) (recordData : List (String × List String)) :
    Fields :=
  specs.foldl (applyFieldSpec parse lookupN recordData) []

/-- The record-type determination at the head of the entry loop:
`if recordType is None:` try the DN, then the raw data.  `rt0` is the
value the loop variable `recordType` holds when the iteration starts
(the function parameter, which the loop reassigns, so a type resolved
for one entry is carried over to later entries). -/
def resolveRecordType (baseDN : String)
    (schemas : List (String × RecordTypeSchema)) (rt0 : Option String)
    (dn : String) (rd : List (String × List String)) : Option String :=
  match (match rt0 with
         | some t => some t
         | none => recordTypeForDN baseDN schemas dn) with
  | some t => some t
  | none => recordTypeForRecordData schemas rd

/-- Embedding of one iteration of the entry loop of `_recordsFromReply`:
resolve the record type (an unclassifiable entry is skipped with a
diagnostic), build the fields, skip the entry when `uid` is missing,
otherwise attach `recordType` and `dn` and construct the record.
Returns the carried record type and the optional record. -/
def processEntry (parse lookupN : String → Option String)
    (specs : List FieldSpec) (baseDN : String)
    (schemas : List (String × RecordTypeSchema)) (rt0 : Option String)
    (entry : String × List (String × List String)) :
    Option String × Option Fields :=
  match resolveRecordType baseDN schemas rt0 entry.1 entry.2 with
  | none => (none, none)
  | some t =>
    if lookupField (buildFields parse lookupN specs entry.2) "uid" = none then
      (some t, none)
    else
      (some t,
        some (setField
          (setField (buildFields parse lookupN specs entry.2) "recordType"
            (.name t))
          "dn" (.str entry.1)))

/-- The full entry loop of `_recordsFromReply`, in reply order. -/
def recordsFromReply (parse lookupN : String → Option String)
    (specs : List FieldSpec) (baseDN : String)
    (schemas : List (String × RecordTypeSchema)) :
    Option String → List (String × List (String × List String)) → List Fields
  | _, [] => []
  | rt0, entry :: rest =>
    match processEntry parse lookupN specs baseDN schemas rt0 entry with
    | (rt1, some r) =>
      r :: recordsFromReply parse lookupN specs baseDN schemas rt1 rest
    | (rt1, none) => recordsFromReply parse lookupN specs baseDN schemas rt1 rest

theorem lookupField_setField_same (fields : Fields) (k : String)
    (v : FieldValue) : lookupField (setField fields k v) k = some v := by
  induction fields with
  | nil => simp [setField, lookupField]
  | cons p rest ih =>
    by_cases h : p.1 = k
    · simp [setField, lookupField, h]
    · have hb : (p.1 == k) = false := by simp [h]
      unfold setField
      rw [hb, if_neg Bool.false_ne_true]
      unfold lookupField
      rw [List.find?_cons_of_neg _ (by simp [h])]
      exact ih

theorem lookupField_setField_other (fields : Fields) (k k2 : String)
    (v : FieldValue) (hne : k ≠ k2) :
    lookupField (setField fields k v) k2 = lookupField fields k2 := by
  induction fields with
  | nil => simp [setField, lookupField, hne]
  | cons p rest ih =>
    by_cases h : p.1 = k
    · have hb : (p.1 == k) = true := by simp [h]
      unfold setField
      rw [hb, if_pos rfl]
      unfold lookupField
      rw [List.find?_cons_of_neg _ (by simp [hne]),
        List.find?_cons_of_neg _ (by simp [h, hne])]
    · have hb : (p.1 == k) = false := by simp [h]
      unfold setField
      rw [hb, if_neg Bool.false_ne_true]
      unfold lookupField
      cases hpk : (p.1 == k2) with
      | true => simp [List.find?_cons, hpk]
      | false => simpa [List.find?_cons, hpk] using ih

theorem processEntry_some_shape (parse lookupN : String → Option String)
    (specs : List FieldSpec) (baseDN : String)
    (schemas : List (String × RecordTypeSchema)) (rt0 : Option String)
    (entry : String × List (String × List String)) (r : Fields)
    (h : (processEntry parse lookupN specs baseDN schemas rt0 entry).2 =
      some r) :
    ∃ t, resolveRecordType baseDN schemas rt0 entry.1 entry.2 = some t ∧
      r = setField
        (setField (buildFields parse lookupN specs entry.2) "recordType"
          (FieldValue.name t))
        "dn" (FieldValue.str entry.1) ∧
      lookupField (buildFields parse lookupN specs entry.2) "uid" ≠ none := by
  unfold processEntry at h
  split at h
  · cases h
  · rename_i t hrt
    split at h
    · cases h
    · rename_i huid
      exact ⟨t, hrt, ((Option.some.injEq _ _).mp h).symm, huid⟩

theorem recordsFromReply_mem (parse lookupN : String → Option String)
    (specs : List FieldSpec) (baseDN : String)
    (schemas : List (String × RecordTypeSchema)) (rt0 : Option String)
    (reply : List (String × List (String × List String))) (r : Fields)
    (hr : r ∈ recordsFromReply parse lookupN specs baseDN schemas rt0 reply) :
    ∃ rt1 entry, entry ∈ reply ∧
      (processEntry parse lookupN specs baseDN schemas rt1 entry).2 =
        some r := by
  induction reply generalizing rt0 with
  | nil => cases hr
  | cons e rest ih =>
    unfold recordsFromReply at hr
    cases hpe : processEntry parse lookupN specs baseDN schemas rt0 e with
    | mk rt1 orec =>
      rw [hpe] at hr
      cases orec with
      | some r0 =>
        rcases List.mem_cons.mp hr with rfl | hrest
        · exact ⟨rt0, e, List.mem_cons_self _ _, by rw [hpe]⟩
        · obtain ⟨rt2, entry, hmem, hsome⟩ := ih rt1 hrest
          exact ⟨rt2, entry, List.mem_cons_of_mem _ hmem, hsome⟩
      | none =>
        obtain ⟨rt2, entry, hmem, hsome⟩ := ih rt1 hr
        exact ⟨rt2, entry, List.mem_cons_of_mem _ hmem, hsome⟩

/-- C4: an entry whose coerced field map lacks a `uid` is discarded (no
record is constructed from it), and every record the mapper produces
comes from some entry of the reply and carries exactly that entry's
`dn`, the record type resolved for that entry, and a `uid`. -/
theorem mapper_requires_uid_attaches_type_and_dn
    (parse lookupN : String → Option String) (specs : List FieldSpec)
    (baseDN : String) (schemas : List (String × RecordTypeSchema))
    (rt0 : Option String) (dn : String) (rd : List (String × List String))
    (reply : List (String × List (String × List String))) (r : Fields)
    (hnouid : lookupField (buildFields parse lookupN specs rd) "uid" = none)
    (hr : r ∈ recordsFromReply parse lookupN specs baseDN schemas rt0 reply) :
    (processEntry parse lookupN specs baseDN schemas rt0 (dn, rd)).2 = none ∧
    ∃ entry rt1 t, entry ∈ reply ∧
      resolveRecordType baseDN schemas rt1 entry.1 entry.2 = some t ∧
      r = setField
        (setField (buildFields parse lookupN specs entry.2) "recordType"
          (.name t))
        "dn" (.str entry.1) ∧
      lookupField r "dn" = some (.str entry.1) ∧
      lookupField r "recordType" = some (.name t) ∧
      lookupField r "uid" ≠ none := by
  constructor
  · unfold processEntry
    split
    · rfl
    · rw [if_pos hnouid]
  · obtain ⟨rt1, entry, hmem, hsome⟩ :=
      recordsFromReply_mem parse lookupN specs baseDN schemas rt0 reply r hr
    obtain ⟨t, hrt, hshape, huid⟩ :=
      processEntry_some_shape parse lookupN specs baseDN schemas rt1 entry r
        hsome
    refine ⟨entry, rt1, t, hmem, hrt, hshape, ?_, ?_, ?_⟩
    · rw [hshape]
      exact lookupField_setField_same _ _ _
    · rw [hshape, lookupField_setField_other _ _ _ _ (by decide)]
      exact lookupField_setField_same _ _ _
    · rw [hshape, lookupField_setField_other _ _ _ _ (by decide),
        lookupField_setField_other _ _ _ _ (by decide)]
      exact huid

/-- Schema and reply fixtures for the mapper witnesses. -/
def demoSpecs : List FieldSpec := [⟨"uid", ValueKind.string, false, ["uidattr"]⟩]

def demoSchemas : List (String × RecordTypeSchema) :=
  [("user", ⟨"ou=person", [("objectclass", "inetorgperson")]⟩)]

def demoReply : List (String × List (String × List String)) :=
  [("cn=bob,ou=person,dc=example", [("uidattr", ["bob123"])])]

/-- The record the mapper produces from `demoReply`. -/
def demoRecord : Fields :=
  [("uid", .str "bob123"), ("recordType", .name "user"),
    ("dn", .str "cn=bob,ou=person,dc=example")]

theorem mapper_requires_uid_attaches_type_and_dn_witness :
    (processEntry (fun s => some s) (fun _ => none) demoSpecs "dc=example"
      demoSchemas none
      ("cn=nouid,ou=person,dc=example", [("cn", ["bob"])])).2 = none ∧
    ∃ entry rt1 t, entry ∈ demoReply ∧
      resolveRecordType "dc=example" demoSchemas rt1 entry.1 entry.2 =
        some t ∧
      demoRecord = setField
        (setField (buildFields (fun s => some s) (fun _ => none) demoSpecs
          entry.2) "recordType" (.name t))
        "dn" (.str entry.1) ∧
      lookupField demoRecord "dn" = some (.str entry.1) ∧
      lookupField demoRecord "recordType" = some (.name t) ∧
      lookupField demoRecord "uid" ≠ none :=
  mapper_requires_uid_attaches_type_and_dn (fun s => some s) (fun _ => none)
    demoSpecs "dc=example" demoSchemas none "cn=nouid,ou=person,dc=example"
    [("cn", ["bob"])] demoReply demoRecord (by decide) (by decide)

theorem coerceAll_eq_none (parse : String → Option String)
    (vs : List String) :
    coerceAll parse vs = none ↔ ∃ v ∈ vs, parse v = none := by
  induction vs with
  | nil => simp [coerceAll]
  | cons v rest ih =>
    unfold coerceAll
    cases hv : parse v with
    | none => simp [hv]
    | some w =>
      cases hrest : coerceAll parse rest with
      | none =>
        simp only [hrest]
        constructor
        · intro _
          obtain ⟨u, hu, hpu⟩ := ih.mp hrest
          exact ⟨u, List.mem_cons_of_mem _ hu, hpu⟩
        · intro _
          trivial
      | some ws =>
        simp only [hrest]
        constructor
        · intro h
          cases h
        · rintro ⟨u, hu, hpu⟩
          rcases List.mem_cons.mp hu with rfl | hu
          · rw [hpu] at hv
            cases hv
          · rw [ih.mpr ⟨u, hu, hpu⟩] at hrest
            cases hrest

/-- A parser for the mapper counterexamples: every value parses except
the literal `"bad"`. -/
def demoParse : String → Option String :=
  fun s => if s == "bad" then none else some s

/-- C7 counterexample: a single-valued UUID-kind field whose attribute
carries the raw values `["good", "bad"]`.  Only `"bad"` fails to parse,
yet the mapper leaves the field entirely unset — the surviving value
`"good"` is not kept, contradicting the claim that only the failing
value is skipped (Python's `[valueType(v) for v in values]` raises
before any value of the rule is stored). -/
theorem coercion_failure_drops_good_values_counterexample :
    lookupField
      (buildFields demoParse (fun _ => none)
        [⟨"guid", ValueKind.uuid, false, ["gattr"]⟩]
        [("gattr", ["good", "bad"])]) "guid" = none ∧
    demoParse "good" = some "good" ∧
    demoParse "bad" = none := by
  decide

/-- C7 (amended): a coercion failure on any raw value of an attribute
rule makes that whole rule contribute nothing (all of the rule's values
are skipped, including ones that coerce fine), but the record as a whole
is not aborted: the field map built with the failing rule present equals
the one built without that rule, so all other fields are still
processed. -/
theorem coercion_failure_skips_whole_rule
    (parse lookupN : String → Option String) (multi : Bool)
    (f rule : String) (rd : List (String × List String)) (fields : Fields)
    (vs : List String) (pre post : List FieldSpec)
    (hattr : lookupRaw rd ((splitColon rule).headD "") = some vs)
    (hfail : ∃ v ∈ vs, parse v = none) :
    coerceRule parse lookupN ValueKind.uuid multi f rule rd fields = fields ∧
    buildFields parse lookupN
        (pre ++ ⟨f, ValueKind.uuid, multi, [rule]⟩ :: post) rd =
      buildFields parse lookupN (pre ++ post) rd := by
  have hnone : coerceAll parse vs = none := (coerceAll_eq_none parse vs).mpr hfail
  have hid : ∀ fs : Fields,
      coerceRule parse lookupN ValueKind.uuid multi f rule rd fs = fs := by
    intro fs
    unfold coerceRule
    rw [hattr]
    simp [hnone]
  refine ⟨hid fields, ?_⟩
  have happ : ∀ fs : Fields,
      applyFieldSpec parse lookupN rd fs ⟨f, ValueKind.uuid, multi, [rule]⟩ =
        fs := by
    intro fs
    unfold applyFieldSpec
    simp [hid fs]
  unfold buildFields
  rw [List.foldl_append, List.foldl_append, List.foldl_cons, happ]

def demoRuleRd : List (String × List String) :=
  [("gattr", ["good", "bad"]), ("uidattr", ["u1"])]

def demoUidSpec : FieldSpec := ⟨"uid", ValueKind.string, false, ["uidattr"]⟩

theorem coercion_failure_skips_whole_rule_witness :
    coerceRule demoParse (fun _ => none) ValueKind.uuid false "guid" "gattr"
      demoRuleRd [] = [] ∧
    buildFields demoParse (fun _ => none)
        ([] ++ ⟨"guid", ValueKind.uuid, false, ["gattr"]⟩ :: [demoUidSpec])
        demoRuleRd =
      buildFields demoParse (fun _ => none) ([] ++ [demoUidSpec]) demoRuleRd :=
  coercion_failure_skips_whole_rule demoParse (fun _ => none) false "guid"
    "gattr" demoRuleRd [] ["good", "bad"] [] [demoUidSpec] (by decide)
    (by decide)

/-! ## Group membership resolver (`DirectoryRecord.members` and
`splitIntoBatches`) -/

/-- The `while data:` loop of `splitIntoBatches`, which repeatedly
yields `data[:size]` and deletes it.  The loop runs at most `length`
iterations when `size ≥ 1`, so it is written with that iteration budget
as structural fuel (`chunksOf` supplies `l.length`).  A `size` of zero
would loop forever in Python; callers always pass 500, and the model
returns `[]` there. -/
def chunksOfAux (size : Nat) :
    List (String × String) → Nat → List (List (String × String))
  | [], _ => []
  | _ :: _, 0 => []
  | p :: rest, fuel + 1 =>
    if size = 0 then []
    else ((p :: rest).take size) :: chunksOfAux size ((p :: rest).drop size) fuel

def chunksOf (size : Nat) (l : List (String × String)) :
    List (List (String × String)) :=
  chunksOfAux size l l.length

/-- Embedding of `splitIntoBatches`: an empty data set yields one empty
batch (`if not data: yield []`), otherwise the successive size-bounded
chunks. -/
def splitIntoBatches (data : List (String × String)) (size : Nat) :
    List (List (String × String)) :=
  if data = [] then [[]] else chunksOf size data

/-- Embedding of the classification done for one member DN inside the
`try` of `DirectoryRecord.members`: resolve the record type from the DN
(`recordTypeForDN` returns `None` without raising — that `None` is kept
and used as a grouping key), parse the DN, take `dn[0][0]` (raises on an
empty parse → `none` here), and map the head attribute through
`_attributeToFieldNameMap[attrName][0]` (a missing key or empty list
raises → `none`).  A `none` result is a DN that goes to `faultByDN`. -/
def classifyMemberDN (baseDN : String)
    (schemas : List (String × RecordTypeSchema))
    (attrToField : List (String × List String)) (dnStr : String) :
    Option (Option String × String × String) :=
  match str2dn (lowerString dnStr) with
  | [] => none
  | [] :: _ => none
  | ((attrName, value) :: _) :: _ =>
    match lookupRaw attrToField attrName with
    | none => none
    | some [] => none
    | some (fieldName :: _) =>
      some (recordTypeForDN baseDN schemas dnStr, fieldName, value)

/-- `fieldValuesByRecordType.setdefault(recordType, []).append(pair)` on
an insertion-ordered association list. -/
def setdefaultAppend
    (groups : List (Option String × List (String × String)))
    (key : Option String) (pair : String × String) :
    List (Option String × List (String × String)) :=
  match groups with
  | [] => [(key, [pair])]
  | g :: rest =>
    if g.1 = key then (g.1, g.2 ++ [pair]) :: rest
    else g :: setdefaultAppend rest key pair

/-- The scan over `memberDNs`: group the classifiable DNs' (field, value)
pairs by record type, and collect the DNs whose classification raised
into `faultByDN`, in order. -/
def accumulateMembers
    (classify : String → Option (Option String × String × String))
    (groups : List (Option String × List (String × String)))
    (faults : List String) :
    List String →
      List (Option String × List (String × String)) × List String
  | [] => (groups, faults)
  | dn :: rest =>
    match classify dn with
    | some (rt, fieldName, value) =>
      accumulateMembers classify (setdefaultAppend groups rt (fieldName, value))
        faults rest
    | none => accumulateMembers classify groups (faults ++ [dn]) rest

/-- Embedding of the dispatch plan of `DirectoryRecord.members`: for each
record-type group with a non-empty pair list (`if fieldValue:`), the
pairs are split into batches of 500 and each batch becomes one
OR-compound search issued with `recordTypes=[recordType]`; each fault DN
becomes one direct `_recordWithDN` lookup.  The plan records, per group
key, the list of batches, and the list of direct lookups. -/
def membersPlan (baseDN : String)
    (schemas : List (String × RecordTypeSchema))
    (attrToField : List (String × List String)) (memberDNs : List String) :
    List (Option String × List (List (String × String))) × List String :=
  match accumulateMembers (classifyMemberDN baseDN schemas attrToField) [] []
      memberDNs with
  | (groups, faults) =>
    (groups.filterMap (fun g =>
      if g.2 = [] then none else some (g.1, splitIntoBatches g.2 500)),
      faults)

theorem accumulateMembers_all_classified
    (classify : String → Option (Option String × String × String))
    (t : Option String) (pf : String → String × String) :
    ∀ (dns : List String) (acc : List (String × String))
      (faults : List String),
      (∀ dn ∈ dns, classify dn = some (t, pf dn)) →
      accumulateMembers classify [(t, acc)] faults dns =
        ([(t, acc ++ dns.map pf)], faults) := by
  intro dns
  induction dns with
  | nil => intro acc faults _; simp [accumulateMembers]
  | cons dn rest ih =>
    intro acc faults hall
    unfold accumulateMembers
    rw [hall dn (List.mem_cons_self _ _)]
    show accumulateMembers classify (setdefaultAppend [(t, acc)] t (pf dn))
      faults rest = _
    have hsd : setdefaultAppend [(t, acc)] t (pf dn) = [(t, acc ++ [pf dn])] := by
      simp [setdefaultAppend]
    rw [hsd, ih (acc ++ [pf dn]) faults
      (fun d hd => hall d (List.mem_cons_of_mem _ hd))]
    simp

theorem accumulateMembers_all_failed
    (classify : String → Option (Option String × String × String)) :
    ∀ (dns : List String)
      (groups : List (Option String × List (String × String)))
      (faults : List String),
      (∀ dn ∈ dns, classify dn = none) →
      accumulateMembers classify groups faults dns =
        (groups, faults ++ dns) := by
  intro dns
  induction dns with
  | nil => intro groups faults _; simp [accumulateMembers]
  | cons dn rest ih =>
    intro groups faults hall
    unfold accumulateMembers
    rw [hall dn (List.mem_cons_self _ _),
      ih groups (faults ++ [dn]) (fun d hd => hall d (List.mem_cons_of_mem _ hd))]
    simp

theorem chunksOfAux_nil (size fuel : Nat) :
    chunksOfAux size [] fuel = [] := by
  cases fuel <;> rfl

theorem chunksOfAux_length (size : Nat) (hs : 1 ≤ size) :
    ∀ (fuel : Nat) (l : List (String × String)), l.length ≤ fuel → l ≠ [] →
      (chunksOfAux size l fuel).length = (l.length + size - 1) / size := by
  intro fuel
  induction fuel with
  | zero =>
    intro l hlen hne
    cases l with
    | nil => exact absurd rfl hne
    | cons p rest => simp at hlen
  | succ m ih =>
    intro l hlen hne
    cases l with
    | nil => exact absurd rfl hne
    | cons p rest =>
      show (if size = 0 then [] else
        ((p :: rest).take size) ::
          chunksOfAux size ((p :: rest).drop size) m).length = _
      rw [if_neg (by omega)]
      cases hdrop : (p :: rest).drop size with
      | nil =>
        have hle : rest.length + 1 ≤ size := by
          have hlen0 := congrArg List.length hdrop
          simp only [List.length_drop, List.length_cons, List.length_nil]
            at hlen0
          omega
        rw [chunksOfAux_nil size m]
        simp only [List.length_cons, List.length_nil]
        exact (Nat.div_eq_of_lt_le (by omega) (by omega)).symm
      | cons q qrest =>
        have hdlen : ((p :: rest).drop size).length = rest.length + 1 - size := by
          simp [List.length_drop]
        have hsize : size ≤ rest.length + 1 := by
          by_contra hcon
          push_neg at hcon
          have hnil : (p :: rest).drop size = [] := by
            apply List.drop_eq_nil_of_le
            simp only [List.length_cons]
            omega
          rw [hnil] at hdrop
          cases hdrop
        have hlt : ((p :: rest).drop size).length ≤ m := by
          rw [hdlen]
          simp only [List.length_cons] at hlen
          omega
        have hne2 : (p :: rest).drop size ≠ [] := by
          rw [hdrop]; exact List.cons_ne_nil _ _
        have hrec := ih ((p :: rest).drop size) hlt hne2
        rw [hdrop] at hrec hdlen
        rw [List.length_cons, hrec, hdlen]
        have h1 : rest.length + 1 - size + size - 1 = rest.length := by omega
        rw [h1]
        have h2 : rest.length + 1 + size - 1 = rest.length + size := by omega
        rw [List.length_cons, h2, Nat.add_div_right _ (by omega)]

theorem chunksOf_length (size : Nat) (hs : 1 ≤ size)
    (l : List (String × String)) (hne : l ≠ []) :
    (chunksOf size l).length = (l.length + size - 1) / size :=
  chunksOfAux_length size hs l.length l (le_refl _) hne

theorem chunksOfAux_batch_le (size : Nat) (hs : 1 ≤ size) :
    ∀ (fuel : Nat) (l : List (String × String)), l.length ≤ fuel →
      ∀ b ∈ chunksOfAux size l fuel, b.length ≤ size := by
  intro fuel
  induction fuel with
  | zero =>
    intro l hlen b hb
    cases l with
    | nil => cases hb
    | cons p rest => simp at hlen
  | succ m ih =>
    intro l hlen b hb
    cases l with
    | nil => cases hb
    | cons p rest =>
      rw [show chunksOfAux size (p :: rest) (m + 1) =
        (if size = 0 then [] else
          ((p :: rest).take size) ::
            chunksOfAux size ((p :: rest).drop size) m) from rfl] at hb
      rw [if_neg (by omega)] at hb
      rcases List.mem_cons.mp hb with rfl | hb2
      · exact List.length_take_le _ _
      · refine ih ((p :: rest).drop size) ?_ b hb2
        simp only [List.length_drop, List.length_cons]
        simp only [List.length_cons] at hlen
        omega

theorem chunksOf_batch_le (size : Nat) (hs : 1 ≤ size)
    (l : List (String × String)) :
    ∀ b ∈ chunksOf size l, b.length ≤ size :=
  chunksOfAux_batch_le size hs l.length l (le_refl _)

/-- C5 counterexample: the member DN `"cn=bob,ou=elsewhere,dc=example"`
fails record-type classification (`recordTypeForDN` returns no match)
but parses fine and its head attribute `cn` is mapped, so the resolver
accumulates it under the absent record type and issues a batched search
for it — it performs zero direct DN lookups, where the claim requires
exactly one. -/
theorem members_unclassified_dn_not_faulted_counterexample :
    recordTypeForDN "dc=example"
      [("user", ⟨"ou=person", [("objectclass", "inetorgperson")]⟩)]
      "cn=bob,ou=elsewhere,dc=example" = none ∧
    membersPlan "dc=example"
      [("user", ⟨"ou=person", [("objectclass", "inetorgperson")]⟩)]
      [("cn", ["fullNames"])]
      ["cn=bob,ou=elsewhere,dc=example"] =
      ([(none, [[("fullNames", "bob")]])], []) := by
  decide

/-- C5 (amended): when every member DN classifies to the same record
type and yields a field mapping, the resolver batches all derived
(field, value) pairs for that type into `⌈N/500⌉` chunks of at most 500,
one search per chunk, and performs zero direct lookups; a member DN
whose DN parsing or field mapping raises is resolved by exactly one
direct DN lookup each (and with only such DNs there are no batches).  A
DN that merely matches no record-type schema is grouped under the absent
type, not looked up directly. -/
theorem members_batching (baseDN t : String)
    (schemas : List (String × RecordTypeSchema))
    (attrToField : List (String × List String)) (dns : List String)
    (pf : String → String × String) (hne : dns ≠ []) :
    ((∀ dn ∈ dns, classifyMemberDN baseDN schemas attrToField dn =
        some (some t, pf dn)) →
      membersPlan baseDN schemas attrToField dns =
        ([(some t, splitIntoBatches (dns.map pf) 500)], []) ∧
      (splitIntoBatches (dns.map pf) 500).length = (dns.length + 499) / 500 ∧
      ∀ b ∈ splitIntoBatches (dns.map pf) 500, b.length ≤ 500) ∧
    ((∀ dn ∈ dns, classifyMemberDN baseDN schemas attrToField dn = none) →
      membersPlan baseDN schemas attrToField dns = ([], dns)) := by
  constructor
  · intro hall
    have hmapne : dns.map pf ≠ [] := by
      cases dns with
      | nil => exact absurd rfl hne
      | cons d rest => exact List.cons_ne_nil _ _
    have hacc : accumulateMembers (classifyMemberDN baseDN schemas attrToField)
        [] [] dns = ([(some t, dns.map pf)], []) := by
      cases dns with
      | nil => exact absurd rfl hne
      | cons d rest =>
        unfold accumulateMembers
        rw [hall d (List.mem_cons_self _ _)]
        show accumulateMembers _ (setdefaultAppend [] (some t) (pf d)) [] rest = _
        rw [show setdefaultAppend [] (some t) (pf d) = [(some t, [pf d])] from rfl]
        rw [accumulateMembers_all_classified _ (some t) pf rest [pf d] []
          (fun x hx => hall x (List.mem_cons_of_mem _ hx))]
        simp
    constructor
    · unfold membersPlan
      rw [hacc]
      simp only [List.filterMap]
      rw [if_neg hmapne]
    · constructor
      · unfold splitIntoBatches
        rw [if_neg hmapne]
        rw [chunksOf_length 500 (by omega) (dns.map pf) hmapne]
        simp
      · intro b hb
        unfold splitIntoBatches at hb
        rw [if_neg hmapne] at hb
        exact chunksOf_batch_le 500 (by omega) (dns.map pf) b hb
  · intro hall
    unfold membersPlan
    rw [accumulateMembers_all_failed _ dns [] [] hall]
    simp

/-- Member DNs for the C5 witness: two users under `ou=person`. -/
def demoMemberDNs : List String :=
  ["cn=alice,ou=person,dc=example", "cn=bob,ou=person,dc=example"]

def demoMemberPf : String → String × String :=
  fun dn =>
    if dn = "cn=alice,ou=person,dc=example" then ("fullNames", "alice")
    else ("fullNames", "bob")

theorem members_batching_witness :
    ((∀ dn ∈ demoMemberDNs,
        classifyMemberDN "dc=example" demoSchemas [("cn", ["fullNames"])] dn =
          some (some "user", demoMemberPf dn)) →
      membersPlan "dc=example" demoSchemas [("cn", ["fullNames"])]
          demoMemberDNs =
        ([(some "user", splitIntoBatches (demoMemberDNs.map demoMemberPf) 500)],
          []) ∧
      (splitIntoBatches (demoMemberDNs.map demoMemberPf) 500).length =
        (demoMemberDNs.length + 499) / 500 ∧
      ∀ b ∈ splitIntoBatches (demoMemberDNs.map demoMemberPf) 500,
        b.length ≤ 500) ∧
    ((∀ dn ∈ demoMemberDNs,
        classifyMemberDN "dc=example" demoSchemas [("cn", ["fullNames"])] dn =
          none) →
      membersPlan "dc=example" demoSchemas [("cn", ["fullNames"])]
        demoMemberDNs = ([], demoMemberDNs)) :=
  members_batching "dc=example" "user" demoSchemas [("cn", ["fullNames"])]
    demoMemberDNs demoMemberPf (by decide)

end TwextLDAP
